import Mathlib

/-!
Verification development for the TradingAnalysis repository.

The embedding covers the three core components:
* `app/core/message_bus.py` — topic-based pub/sub with a message log
  (`MessageBus`, `subscribe`, `publish`),
* `app/agents/base.py` — the agent contract (`Agent`, `receive`),
* `app/core/cache_manager.py` — the TTL cache (`CacheManager.get`,
  `CacheManager.set`, `CacheManager.load`),
* `app/core/trading_session.py` — the session projections
  (`TradingSession.get_results`, `TradingSession.consolidateAnalyses`,
  `TradingSession.getPriceData`).

Python dicts are modelled as functions into `Option`; mutation becomes
explicit state passing; Python exceptions become `Except Unit` results,
and a boolean flag on `publish` records whether an exception escaped
(Python mutates in place, so the log state at the moment an exception
propagates is retained alongside the flag).  A ghost trace field `calls`
records every invocation of an agent's `receive` entry point so that
claims about "receive is invoked exactly once per subscriber" become
statements about the final state.  Recursion through nested publishes is
bounded by explicit fuel (the Python code has no bound; every claim is
settled at, or quantified over, sufficient fuel).
-/

/-- An agent as in `app/agents/base.py`: a name, the pure interest filter
`should_handle` (which may raise — modelled by `Except`), and
`process_message`, which may raise or publish follow-up messages
(modelled as the returned list of (topic, payload) pairs, sent in order
with the agent's own name as sender, via `FinancialAgent.send`). -/
structure Agent (α : Type) where
  name : String
  shouldHandle : String → α → Except Unit Bool
  processMessage : String → α → String → Except Unit (List (String × α))

/-- The message bus state (`app/core/message_bus.py`): the subscriber
table (a dict from topic to subscriber list, kept as an insertion-ordered
association list exactly like a Python dict), the message log, and a
ghost trace of `receive` invocations (agent name, topic). -/
structure MessageBus (α : Type) where
  subscribers : List (String × List (Agent α)) := []
  messages : List (String × α × String) := []
  calls : List (String × String) := []

/-- Dict lookup `self.subscribers[topic]` / `topic in self.subscribers`. -/
def subsFind {α : Type} (l : List (String × List (Agent α))) (t : String) :
    Option (List (Agent α)) :=
  (l.find? (fun p => p.1 == t)).map (fun p => p.2)

/-- `MessageBus.subscribe`: create the topic's (empty) list if absent,
then append the agent.  No deduplication. -/
def subscribe {α : Type} (bus : MessageBus α) (agent : Agent α) (topic : String) :
    MessageBus α :=
  match subsFind bus.subscribers topic with
  | none => { bus with subscribers := bus.subscribers ++ [(topic, [agent])] }
  | some _ =>
      { bus with subscribers :=
          bus.subscribers.map (fun p => if p.1 == topic then (p.1, p.2 ++ [agent]) else p) }

/-- Append a published message to the log (first line of `publish`). -/
def addMsg {α : Type} (bus : MessageBus α) (topic : String) (message : α)
    (sender : String) : MessageBus α :=
  { bus with messages := bus.messages ++ [(topic, message, sender)] }

/-- Ghost step: record that some agent's `receive` was invoked. -/
def addCall {α : Type} (bus : MessageBus α) (name topic : String) : MessageBus α :=
  { bus with calls := bus.calls ++ [(name, topic)] }

/-- `FinancialAgent.receive`, parameterised by the publish function used
for the agent's own nested `send` calls.  The `Bool` is `false` exactly
when an exception escapes `receive` — which happens only when
`should_handle` raises: exceptions from `process_message` (including any
raised while fanning out the agent's own nested publishes) are caught by
the `try`/`except` around the `process_message` call. -/
def receiveWith {α : Type}
    (pub : MessageBus α → String → α → String → MessageBus α × Bool)
    (bus : MessageBus α) (ag : Agent α) (topic : String) (message : α)
    (sender : String) : MessageBus α × Bool :=
  let bus1 := addCall bus ag.name topic
  match ag.shouldHandle topic message with
  | .error _ => (bus1, false)
  | .ok false => (bus1, true)
  | .ok true =>
      match ag.processMessage topic message sender with
      | .error _ => (bus1, true)
      | .ok outs =>
          ((outs.foldl
              (fun acc out => if acc.2 then pub acc.1 out.1 out.2 ag.name else acc)
              (bus1, true)).1,
            true)

/-- `MessageBus.publish`: append the message to the log, then invoke
`receive` on each current subscriber of the topic in list order, stopping
(with flag `false`) if one of them lets an exception escape.  Nested
publishes made by a handler run immediately (depth-first), at one less
fuel. -/
def publish {α : Type} (fuel : Nat) (bus : MessageBus α) (topic : String)
    (message : α) (sender : String) : MessageBus α × Bool :=
  let bus1 := addMsg bus topic message sender
  match fuel with
  | 0 => (bus1, false)
  | f + 1 =>
      match subsFind bus1.subscribers topic with
      | none => (bus1, true)
      | some subs =>
          subs.foldl
            (fun acc ag =>
              if acc.2 then receiveWith (publish f) acc.1 ag topic message sender else acc)
            (bus1, true)

/-- `FinancialAgent.receive` at a given nesting budget. -/
def receive {α : Type} (fuel : Nat) : MessageBus α → Agent α → String → α →
    String → MessageBus α × Bool :=
  fun bus ag topic message sender => receiveWith (publish fuel) bus ag topic message sender

/-- A subscriber that reacts passively to `(t, p, s)`: either its interest
filter returns `false`, or it returns `true` and `process_message` either
does nothing observable (publishes no follow-up) or raises.  Such an
agent's `receive` only leaves the ghost invocation record behind. -/
def Inert {α : Type} (ag : Agent α) (t : String) (p : α) (s : String) : Prop :=
  ag.shouldHandle t p = .ok false ∨
    (ag.shouldHandle t p = .ok true ∧
      (ag.processMessage t p s = .ok [] ∨ ag.processMessage t p s = .error ()))

/-- Concrete agent that handles every topic and does nothing further. -/
def agentNop (n : String) : Agent Nat :=
  { name := n,
    shouldHandle := fun _ _ => .ok true,
    processMessage := fun _ _ _ => .ok [] }

/-- Concrete agent whose interest filter declines every topic. -/
def agentDecline (n : String) : Agent Nat :=
  { name := n,
    shouldHandle := fun _ _ => .ok false,
    processMessage := fun _ _ _ => .ok [] }

/-- Concrete agent whose `process_message` raises on every message. -/
def agentProcRaise (n : String) : Agent Nat :=
  { name := n,
    shouldHandle := fun _ _ => .ok true,
    processMessage := fun _ _ _ => .error () }

/-- Concrete agent whose `should_handle` itself raises. -/
def agentFilterRaise (n : String) : Agent Nat :=
  { name := n,
    shouldHandle := fun _ _ => .error (),
    processMessage := fun _ _ _ => .ok [] }

/-- The agent of the C7 scenario: subscribed to "ping", republishes on
"pong" with the numeric payload incremented, under its own name. -/
def pongAgent : Agent Nat :=
  { name := "Ponger",
    shouldHandle := fun topic _ => .ok (topic == "ping"),
    processMessage := fun _ n _ => .ok [("pong", n + 1)] }

/-- Fresh bus of the C7 scenario: one agent subscribed to "ping". -/
def freshPingBus : MessageBus Nat := subscribe {} pongAgent "ping"

/-- Two-subscriber bus used to witness the C1 fan-out claim. -/
def busC1 : MessageBus Nat :=
  { subscribers := [("t", [agentNop "A", agentNop "B"])] }

/-- Three-subscriber bus used to witness C2: the middle subscriber's
`process_message` raises. -/
def busC2 : MessageBus Nat :=
  { subscribers := [("t", [agentNop "A", agentProcRaise "B", agentNop "C"])] }

/-- Bus used to witness C10: the second subscriber's `should_handle`
raises; a third subscriber follows it. -/
def busC10 : MessageBus Nat :=
  { subscribers := [("t", [agentDecline "A", agentFilterRaise "X", agentNop "C"])] }

/-! ## Cache (`app/core/cache_manager.py`)

The pickled dict `self.cache` is modelled as a function from keys to
optional entries; `datetime.now()` is an explicit `now : Nat` argument;
`timedelta(seconds=ttl)` is addition on `Nat`. -/

namespace CacheManager

/-- One value of the cache dict: `{'data': ..., 'expiry': ...}`. -/
structure CEntry (α : Type) where
  data : α
  expiry : Nat
deriving DecidableEq

/-- The cache dict (`self.cache`). -/
abbrev Store (α : Type) := String → Option (CEntry α)

/-- `self.cache = {}` as set in `__new__`. -/
def emptyStore {α : Type} : Store α := fun _ => none

/-- `CacheManager._clean_expired`: delete every entry with
`now >= value['expiry']`. -/
def clean_expired {α : Type} (now : Nat) (c : Store α) : Store α := fun k =>
  match c k with
  | some e => if now < e.expiry then some e else none
  | none => none

/-- `CacheManager.get`: purge expired entries, then return the entry's
data if it exists and `now < expiry`, else `None`. -/
def get {α : Type} (now : Nat) (c : Store α) (key : String) : Option α :=
  let c' := clean_expired now c
  match c' key with
  | some e => if now < e.expiry then some e.data else none
  | none => none

/-- `CacheManager.set`: overwrite the key with
`{'data': data, 'expiry': now + ttl}`.  (The write-through `_save_cache`
touches only durable storage, not the in-memory store.) -/
def set {α : Type} (now : Nat) (c : Store α) (key : String) (data : α) (ttl : Nat) :
    Store α :=
  fun k => if k == key then some ⟨data, now + ttl⟩ else c k

/-- `CacheManager._load_cache` as called from `__new__` (which first sets
`self.cache = {}`): if the file does not exist the store stays empty; if
reading/unpickling succeeds the loaded store is purged of expired
entries; if it raises, the exception is caught and the store is reset to
empty. -/
def load (α : Type) (fileExists : Bool) (loaded : Except Unit (Store α)) (now : Nat) :
    Store α :=
  if fileExists then
    match loaded with
    | .ok c => clean_expired now c
    | .error _ => emptyStore
  else emptyStore

/-- A history of cache mutations (only `set` changes the store's
key/value content). -/
inductive CacheOp (α : Type) where
  | set (key : String) (v : α) (time : Nat) (ttl : Nat)

/-- Replay a history of `set` calls, oldest first. -/
def applyOps {α : Type} (c : Store α) : List (CacheOp α) → Store α
  | [] => c
  | .set k v t ttl :: rest => applyOps (set t c k v ttl) rest

/-- The most recent `set` on key `k` in a history (value, time, ttl). -/
def lastSet {α : Type} (k : String) : List (CacheOp α) → Option (α × Nat × Nat)
  | [] => none
  | .set k' v t ttl :: rest =>
      match lastSet k rest with
      | some r => some r
      | none => if k' == k then some (v, t, ttl) else none

end CacheManager

/-! ## Session projections (`app/core/trading_session.py`)

Message payloads are Python dicts with conventional keys; the embedding
uses a record of optional fields covering every key the session logic
reads or writes (`msg.get(k)` on a missing key is `none`).  Price
dataframes are abstracted to lists of rows: the session code only ever
tests `data.empty`. -/

/-- A message payload: an open string-keyed dict, restricted to the keys
the core reads/writes. -/
structure Payload where
  symbol : Option String := none
  data : Option (List Nat) := none
  analysis : Option String := none
  recommendation : Option String := none
  news_analysis : Option String := none
  technical_analysis : Option String := none
  ownership_analysis : Option String := none
  economic_analysis : Option String := none
  peer_analysis : Option String := none
deriving DecidableEq

/-- An entry of `bus.messages`: (topic, payload, sender). -/
abbrev LogEntry := String × Payload × String

namespace TradingSession

/-- The dict returned by `TradingSession.get_results`.  Fields that the
Python code can set to `None` are `Option`-valued (`none` = Python
`None`). -/
structure Results where
  symbol : String
  news_analysis : Option String
  technical_analysis : Option String
  recommendation : Option String
  ownership_analysis : Option String
  economic_analysis : Option String
  peer_analysis : Option String
deriving DecidableEq

/-- `TradingSession.get_results`: each field is
`next((msg.get(field) for topic, msg, _ in bus.messages if topic == T), default)`,
i.e. the extracted field of the *first* matching log entry, else the
default. -/
def get_results (symbol : String) (log : List LogEntry) : Results :=
  { symbol := symbol,
    news_analysis :=
      match log.find? (fun e => e.1 == "news_analysis") with
      | some e => e.2.1.analysis
      | none => some "No news analysis",
    technical_analysis :=
      match log.find? (fun e => e.1 == "technical_analysis") with
      | some e => e.2.1.analysis
      | none => some "No technical analysis",
    recommendation :=
      match log.find? (fun e => e.1 == "final_recommendation") with
      | some e => e.2.1.recommendation
      | none => some "No recommendation",
    ownership_analysis :=
      match log.find? (fun e => e.1 == "ownership_analysis") with
      | some e => e.2.1.analysis
      | none => none,
    economic_analysis :=
      match log.find? (fun e => e.1 == "economic_analysis") with
      | some e => e.2.1.analysis
      | none => none,
    peer_analysis :=
      match log.find? (fun e => e.1 == "peer_analysis") with
      | some e => e.2.1.analysis
      | none => none }

/-- Modelled from the words of claim C4: the projection that, for each
tracked result topic, returns the extracted field of the *most recent*
message on that topic, else the sentinel.  Used only to compare against
`get_results`. -/
def specResultsMostRecent (symbol : String) (log : List LogEntry) : Results :=
  { symbol := symbol,
    news_analysis :=
      match (log.filter (fun e => e.1 == "news_analysis")).getLast? with
      | some e => e.2.1.analysis
      | none => some "No news analysis",
    technical_analysis :=
      match (log.filter (fun e => e.1 == "technical_analysis")).getLast? with
      | some e => e.2.1.analysis
      | none => some "No technical analysis",
    recommendation :=
      match (log.filter (fun e => e.1 == "final_recommendation")).getLast? with
      | some e => e.2.1.recommendation
      | none => some "No recommendation",
    ownership_analysis :=
      match (log.filter (fun e => e.1 == "ownership_analysis")).getLast? with
      | some e => e.2.1.analysis
      | none => none,
    economic_analysis :=
      match (log.filter (fun e => e.1 == "economic_analysis")).getLast? with
      | some e => e.2.1.analysis
      | none => none,
    peer_analysis :=
      match (log.filter (fun e => e.1 == "peer_analysis")).getLast? with
      | some e => e.2.1.analysis
      | none => none }

/-- Amended reading of C4: the same projection built from the *earliest*
message on each topic (the head of the filtered log). -/
def specResultsFirst (symbol : String) (log : List LogEntry) : Results :=
  { symbol := symbol,
    news_analysis :=
      match (log.filter (fun e => e.1 == "news_analysis")).head? with
      | some e => e.2.1.analysis
      | none => some "No news analysis",
    technical_analysis :=
      match (log.filter (fun e => e.1 == "technical_analysis")).head? with
      | some e => e.2.1.analysis
      | none => some "No technical analysis",
    recommendation :=
      match (log.filter (fun e => e.1 == "final_recommendation")).head? with
      | some e => e.2.1.recommendation
      | none => some "No recommendation",
    ownership_analysis :=
      match (log.filter (fun e => e.1 == "ownership_analysis")).head? with
      | some e => e.2.1.analysis
      | none => none,
    economic_analysis :=
      match (log.filter (fun e => e.1 == "economic_analysis")).head? with
      | some e => e.2.1.analysis
      | none => none,
    peer_analysis :=
      match (log.filter (fun e => e.1 == "peer_analysis")).head? with
      | some e => e.2.1.analysis
      | none => none }

/-- A log with two messages on "news_analysis": exposes that
`get_results` reads the earliest, not the most recent. -/
def newsTwiceLog : List LogEntry :=
  [("news_analysis", { analysis := some "a" }, "NewsAnalyst"),
   ("news_analysis", { analysis := some "b" }, "NewsAnalyst")]

/-- The `analyses` dict literal of `_consolidate_analyses`: the five
tracked result topics, each mapped to its placeholder; every other topic
is absent. -/
def initAnalyses : String → Option String := fun t =>
  if t == "news_analysis" then some "No news analysis available"
  else if t == "technical_analysis" then some "No technical analysis available"
  else if t == "ownership_analysis" then some "No ownership analysis available"
  else if t == "economic_analysis" then some "No economic analysis available"
  else if t == "peer_analysis" then some "No peer analysis available"
  else none

/-- One iteration of the collection loop of `_consolidate_analyses`:
`if topic in analyses: analyses[topic] = msg.get("analysis", analyses[topic])`. -/
def consolidateStep (a : String → Option String) (e : LogEntry) :
    String → Option String :=
  match a e.1 with
  | some cur => fun t => if t == e.1 then some ((e.2.1.analysis).getD cur) else a t
  | none => a

/-- `TradingSession._consolidate_analyses`: fold the collection loop over
the whole log, then publish one "analysis_consolidation" message carrying
the symbol and all five assembled results.  (Dispatch of that message to
its subscriber is the bus's business; at the log level the call appends
exactly this one entry.) -/
def consolidateAnalyses (symbol : String) (log : List LogEntry) : List LogEntry :=
  let a := log.foldl consolidateStep initAnalyses
  log ++ [("analysis_consolidation",
    { symbol := some symbol,
      news_analysis := a "news_analysis",
      technical_analysis := a "technical_analysis",
      ownership_analysis := a "ownership_analysis",
      economic_analysis := a "economic_analysis",
      peer_analysis := a "peer_analysis" }, "System")]

/-- The extracted value of the last message published on topic `t`
(spec-side description used to state C6). -/
def lastAnalysisOn (log : List LogEntry) (t : String) : Option String :=
  ((log.filter (fun e => e.1 == t)).getLast?).bind (fun e => e.2.1.analysis)

/-- Log used to witness C6: news published twice, technical once, the
other three result topics never. -/
def consolidateWitnessLog : List LogEntry :=
  [("news_analysis", { analysis := some "n1" }, "NewsAnalyst"),
   ("price_data", { symbol := some "AAPL" }, "System"),
   ("news_analysis", { analysis := some "n2" }, "NewsAnalyst"),
   ("technical_analysis", { analysis := some "ta" }, "MarketAnalyst")]

/-- The payload `{"symbol": symbol, "data": d}` published on
"price_data". -/
def pricePayload (symbol : String) (d : List Nat) : Payload :=
  { symbol := some symbol, data := some d }

/-- The `try` part of `_get_price_data`: fetch from the provider; on a
non-empty result cache it (second component of the result) and publish
it; on an empty result publish an empty dataframe; if the fetch raises,
catch, print, and publish nothing. -/
def priceFetchBranch (symbol : String) (fetch : Except Unit (List Nat))
    (log : List LogEntry) : List LogEntry × Option (List Nat) :=
  match fetch with
  | .ok d =>
      if d ≠ [] then (log ++ [("price_data", pricePayload symbol d, "System")], some d)
      else (log ++ [("price_data", pricePayload symbol [], "System")], none)
  | .error _ => (log, none)

/-- `TradingSession._get_price_data`: `cached` is the cache lookup
result; if it is a non-empty dataframe it is republished directly,
otherwise the fetch branch runs.  Returns the new log and the dataframe
written to the cache, if any. -/
def getPriceData (symbol : String) (cached : Option (List Nat))
    (fetch : Except Unit (List Nat)) (log : List LogEntry) :
    List LogEntry × Option (List Nat) :=
  match cached with
  | some d =>
      if d ≠ [] then (log ++ [("price_data", pricePayload symbol d, "System")], none)
      else priceFetchBranch symbol fetch log
  | none => priceFetchBranch symbol fetch log

end TradingSession

theorem publish_zero {α : Type} (bus : MessageBus α) (t : String) (p : α) (s : String) :
    publish 0 bus t p s = (addMsg bus t p s, false) := rfl

theorem publish_succ {α : Type} (f : Nat) (bus : MessageBus α) (t : String) (p : α)
    (s : String) :
    publish (f + 1) bus t p s =
      match subsFind bus.subscribers t with
      | none => (addMsg bus t p s, true)
      | some subs =>
          subs.foldl
            (fun acc ag =>
              if acc.2 then receive f acc.1 ag t p s else acc)
            (addMsg bus t p s, true) := by
  simp only [publish, receive, addMsg]

theorem receive_inert {α : Type} (fuel : Nat) (bus : MessageBus α) (ag : Agent α)
    (t : String) (p : α) (s : String) (h : Inert ag t p s) :
    receive fuel bus ag t p s = (addCall bus ag.name t, true) := by
  rcases h with h | ⟨h1, h2 | h2⟩
  · simp [receive, receiveWith, h]
  · simp [receive, receiveWith, h1, h2]
  · simp [receive, receiveWith, h1, h2]

theorem receive_handle_exn {α : Type} (fuel : Nat) (bus : MessageBus α) (ag : Agent α)
    (t : String) (p : α) (s : String) (h1 : ag.shouldHandle t p = .ok true)
    (h2 : ag.processMessage t p s = .error ()) :
    receive fuel bus ag t p s = (addCall bus ag.name t, true) := by
  simp [receive, receiveWith, h1, h2]

theorem receive_filter_exn {α : Type} (fuel : Nat) (bus : MessageBus α) (ag : Agent α)
    (t : String) (p : α) (s : String) (h : ag.shouldHandle t p = .error ()) :
    receive fuel bus ag t p s = (addCall bus ag.name t, false) := by
  simp [receive, receiveWith, h]

theorem foldl_receive_inert {α : Type} (fuel : Nat) (t : String) (p : α) (s : String) :
    ∀ (subs : List (Agent α)) (bus : MessageBus α),
      (∀ ag ∈ subs, Inert ag t p s) →
      subs.foldl (fun acc ag => if acc.2 then receive fuel acc.1 ag t p s else acc)
          (bus, true)
        = ({ bus with calls := bus.calls ++ subs.map (fun ag => (ag.name, t)) }, true) := by
  intro subs
  induction subs with
  | nil => intro bus _; simp
  | cons ag rest ih =>
      intro bus h
      have hhd : Inert ag t p s := h ag (by simp)
      simp only [List.foldl_cons, if_pos, receive_inert fuel bus ag t p s hhd]
      rw [ih (addCall bus ag.name t) (fun a ha => h a (by simp [ha]))]
      simp [addCall, List.append_assoc]

theorem foldl_receive_skip {α : Type} (fuel : Nat) (t : String) (p : α) (s : String) :
    ∀ (subs : List (Agent α)) (bus : MessageBus α),
      subs.foldl (fun acc ag => if acc.2 then receive fuel acc.1 ag t p s else acc)
          (bus, false) = (bus, false) := by
  intro subs
  induction subs with
  | nil => intro bus; rfl
  | cons ag rest ih => intro bus; simpa using ih bus

theorem subsFind_addMsg {α : Type} (bus : MessageBus α) (t t' : String) (p : α)
    (s : String) :
    subsFind (addMsg bus t p s).subscribers t' = subsFind bus.subscribers t' := rfl

theorem find?_map_appendAgent {α : Type} (a : Agent α) (t : String) :
    ∀ (l : List (String × List (Agent α))) (q : String × List (Agent α)),
      l.find? (fun p => p.1 == t) = some q →
      (l.map (fun p => if p.1 == t then (p.1, p.2 ++ [a]) else p)).find?
          (fun p => p.1 == t) = some (q.1, q.2 ++ [a]) := by
  intro l
  induction l with
  | nil => intro q hq; simp at hq
  | cons q' l ih =>
      intro q hq
      by_cases h : q'.1 = t
      · rw [List.find?_cons_of_pos _ (by simp [h])] at hq
        cases hq
        simp [h]
      · rw [List.find?_cons_of_neg _ (by simp [h])] at hq
        simpa [h] using ih q hq

theorem subsFind_subscribe {α : Type} (bus : MessageBus α) (a : Agent α) (t : String) :
    subsFind (subscribe bus a t).subscribers t
      = some ((subsFind bus.subscribers t).getD [] ++ [a]) := by
  unfold subscribe
  cases h : subsFind bus.subscribers t with
  | none =>
      have hfind : bus.subscribers.find? (fun p => p.1 == t) = none := by
        simpa [subsFind] using h
      simp [subsFind, List.find?_append, hfind]
  | some xs =>
      obtain ⟨q, hq, hq2⟩ :
          ∃ q, bus.subscribers.find? (fun p => p.1 == t) = some q ∧ q.2 = xs := by
        simpa [subsFind] using h
      simp only [h, Option.getD_some, subsFind,
        find?_map_appendAgent a t bus.subscribers q hq, Option.map_some', hq2]

/-- C1: for every topic `t`, `publish` appends the message `(t, p, s)` to
the log and then invokes the `receive` handler of every agent currently
in `t`'s subscriber list exactly once per list entry, in subscriber-list
order (stated for subscribers that neither raise in `should_handle` nor
publish follow-ups, so that "exactly once" is well defined); if `t` has
no subscribers, the message is still appended and no handler runs. -/
theorem C1_publish_appends_then_fans_out {α : Type} (fuel : Nat) (bus : MessageBus α)
    (t : String) (p : α) (s : String) :
    (subsFind bus.subscribers t = none →
        publish (fuel + 1) bus t p s = (addMsg bus t p s, true)) ∧
    (∀ subs, subsFind bus.subscribers t = some subs →
        (∀ ag ∈ subs, Inert ag t p s) →
        publish (fuel + 1) bus t p s =
          ({ bus with
              messages := bus.messages ++ [(t, p, s)],
              calls := bus.calls ++ subs.map (fun ag => (ag.name, t)) }, true)) := by
  constructor
  · intro h
    rw [publish_succ, h]
  · intro subs hsubs hinert
    rw [publish_succ, hsubs]
    dsimp only
    rw [foldl_receive_inert fuel t p s subs (addMsg bus t p s) hinert]
    simp [addMsg]

theorem C1_witness :
    publish 3 busC1 "t" (0 : Nat) "Sys" =
      ({ busC1 with
          messages := [("t", 0, "Sys")],
          calls := [("A", "t"), ("B", "t")] }, true) ∧
    publish 3 busC1 "other" (0 : Nat) "Sys" = (addMsg busC1 "other" 0 "Sys", true) := by
  constructor
  · exact (C1_publish_appends_then_fans_out 2 busC1 "t" 0 "Sys").2
      [agentNop "A", agentNop "B"] rfl
      (by
        intro ag hag
        simp only [List.mem_cons, List.not_mem_nil, or_false] at hag
        rcases hag with rfl | rfl
        · exact Or.inr ⟨rfl, Or.inl rfl⟩
        · exact Or.inr ⟨rfl, Or.inl rfl⟩)
  · exact (C1_publish_appends_then_fans_out 2 busC1 "other" 0 "Sys").1 rfl

/-- C7: nested publishes run depth-first, before the outer publish
returns: on a fresh bus with one agent subscribed to "ping" that
republishes on "pong" with the payload incremented under its own name,
publishing `("ping", 1, "test")` leaves the log containing exactly
`[("ping", 1, "test"), ("pong", 2, "Ponger")]` in that order (and no
exception escapes the publish). -/
theorem C7_nested_publish_depth_first :
    (publish 2 freshPingBus "ping" 1 "test").1.messages
        = [("ping", 1, "test"), ("pong", 2, "Ponger")] ∧
    (publish 2 freshPingBus "ping" 1 "test").2 = true := by
  constructor <;> decide

/-- C2: with three subscribers to a topic, if the second one's
`process_message` raises during the fan-out, the exception is caught
inside that subscriber's `receive` wrapper (only the ghost invocation
record is left behind) and the fan-out continues: the third subscriber's
`receive` runs on the same message, so the whole publish equals
"receive a1, record a2's invocation, receive a3"; in particular, if the
third subscriber's `receive` completes, publish itself reports no
escaped exception. -/
theorem C2_process_exn_does_not_abort_fanout {α : Type} (fuel : Nat)
    (bus : MessageBus α) (t : String) (p : α) (s : String) (a1 a2 a3 : Agent α)
    (hsubs : subsFind bus.subscribers t = some [a1, a2, a3])
    (h2a : a2.shouldHandle t p = .ok true)
    (h2b : a2.processMessage t p s = .error ())
    (h1 : (receive fuel (addMsg bus t p s) a1 t p s).2 = true) :
    publish (fuel + 1) bus t p s =
      receive fuel (addCall (receive fuel (addMsg bus t p s) a1 t p s).1 a2.name t)
        a3 t p s ∧
    ((receive fuel (addCall (receive fuel (addMsg bus t p s) a1 t p s).1 a2.name t)
          a3 t p s).2 = true →
      (publish (fuel + 1) bus t p s).2 = true) := by
  have key : publish (fuel + 1) bus t p s =
      receive fuel (addCall (receive fuel (addMsg bus t p s) a1 t p s).1 a2.name t)
        a3 t p s := by
    rw [publish_succ, hsubs]
    dsimp only [List.foldl_cons, List.foldl_nil]
    rw [if_pos rfl, if_pos h1,
      receive_handle_exn fuel _ a2 t p s h2a h2b, if_pos rfl]
  exact ⟨key, fun h3 => by rw [key]; exact h3⟩

theorem C2_witness :
    publish 1 busC2 "t" (5 : Nat) "Sys" =
      receive 0 (addCall (receive 0 (addMsg busC2 "t" 5 "Sys") (agentNop "A")
        "t" 5 "Sys").1 "B" "t") (agentNop "C") "t" 5 "Sys" ∧
    (publish 1 busC2 "t" (5 : Nat) "Sys").2 = true := by
  have h := C2_process_exn_does_not_abort_fanout 0 busC2 "t" 5 "Sys"
    (agentNop "A") (agentProcRaise "B") (agentNop "C") rfl rfl rfl (by decide)
  exact ⟨h.1, h.2 (by decide)⟩

/-- C10 (implicit): the failure boundary in `receive` covers only
`process_message`, not `should_handle` — a subscriber whose
`should_handle` raises lets the exception propagate out of `receive` into
the publish loop (flag `false`), aborting the fan-out: subscribers before
it (here: ones whose filter declines) are invoked, it is invoked, and the
remaining subscribers are never invoked; the message itself was already
appended to the log. -/
theorem C10_should_handle_exn_aborts_fanout {α : Type} (fuel : Nat)
    (bus : MessageBus α) (t : String) (p : α) (s : String)
    (pre post : List (Agent α)) (bad : Agent α)
    (hsubs : subsFind bus.subscribers t = some (pre ++ bad :: post))
    (hpre : ∀ ag ∈ pre, ag.shouldHandle t p = .ok false)
    (hbad : bad.shouldHandle t p = .error ()) :
    publish (fuel + 1) bus t p s =
      ({ bus with
          messages := bus.messages ++ [(t, p, s)],
          calls := bus.calls ++ pre.map (fun ag => (ag.name, t)) ++ [(bad.name, t)] },
        false) := by
  rw [publish_succ, hsubs]
  dsimp only
  rw [List.foldl_append]
  rw [foldl_receive_inert fuel t p s pre (addMsg bus t p s)
    (fun ag h => Or.inl (hpre ag h))]
  dsimp only [List.foldl_cons]
  rw [if_pos rfl, receive_filter_exn fuel _ bad t p s hbad]
  rw [foldl_receive_skip]
  simp [addMsg, addCall, List.append_assoc]

theorem C10_witness :
    publish 4 busC10 "t" (5 : Nat) "Sys" =
      ({ busC10 with
          messages := [("t", 5, "Sys")],
          calls := [("A", "t"), ("X", "t")] }, false) := by
  exact C10_should_handle_exn_aborts_fanout 3 busC10 "t" 5 "Sys"
    [agentDecline "A"] [agentNop "C"] (agentFilterRaise "X") rfl
    (by
      intro ag hag
      simp only [List.mem_cons, List.not_mem_nil, or_false] at hag
      subst hag
      rfl)
    rfl

theorem subscribe_messages {α : Type} (bus : MessageBus α) (a : Agent α) (t : String) :
    (subscribe bus a t).messages = bus.messages := by
  unfold subscribe
  cases subsFind bus.subscribers t <;> rfl

theorem subscribe_calls {α : Type} (bus : MessageBus α) (a : Agent α) (t : String) :
    (subscribe bus a t).calls = bus.calls := by
  unfold subscribe
  cases subsFind bus.subscribers t <;> rfl

/-- C9: `subscribe` is not idempotent — subscribing the same agent to the
same topic twice appends it to the topic's subscriber list twice (no
deduplication), and a subsequent single publish on the topic invokes that
agent's `receive` twice (double delivery; stated for a topic that had no
subscribers before, with the agent reacting passively so that the two
invocations are exactly the observable effect). -/
theorem C9_subscribe_not_idempotent {α : Type} :
    (∀ (bus : MessageBus α) (a : Agent α) (t : String),
        subsFind (subscribe (subscribe bus a t) a t).subscribers t
          = some ((subsFind bus.subscribers t).getD [] ++ [a, a])) ∧
    (∀ (fuel : Nat) (bus : MessageBus α) (a : Agent α) (t : String) (p : α) (s : String),
        subsFind bus.subscribers t = none →
        Inert a t p s →
        publish (fuel + 1) (subscribe (subscribe bus a t) a t) t p s =
          ({ subscribe (subscribe bus a t) a t with
              messages := bus.messages ++ [(t, p, s)],
              calls := bus.calls ++ [(a.name, t), (a.name, t)] }, true)) := by
  have twice : ∀ (bus : MessageBus α) (a : Agent α) (t : String),
      subsFind (subscribe (subscribe bus a t) a t).subscribers t
        = some ((subsFind bus.subscribers t).getD [] ++ [a, a]) := by
    intro bus a t
    rw [subsFind_subscribe, subsFind_subscribe]
    simp
  refine ⟨twice, ?_⟩
  intro fuel bus a t p s hnone hinert
  have hsubs : subsFind (subscribe (subscribe bus a t) a t).subscribers t
      = some [a, a] := by rw [twice, hnone]; rfl
  rw [publish_succ, hsubs]
  dsimp only
  rw [foldl_receive_inert fuel t p s [a, a]
    (addMsg (subscribe (subscribe bus a t) a t) t p s)
    (by intro ag hag
        simp only [List.mem_cons, List.not_mem_nil, or_false] at hag
        rcases hag with rfl | rfl <;> exact hinert)]
  simp [addMsg, subscribe_messages, subscribe_calls]

theorem C9_witness :
    subsFind (subscribe (subscribe ({} : MessageBus Nat) (agentNop "A") "t")
        (agentNop "A") "t").subscribers "t"
      = some [agentNop "A", agentNop "A"] ∧
    publish 1 (subscribe (subscribe ({} : MessageBus Nat) (agentNop "A") "t")
        (agentNop "A") "t") "t" (7 : Nat) "Sys" =
      ({ subscribe (subscribe ({} : MessageBus Nat) (agentNop "A") "t")
          (agentNop "A") "t" with
          messages := [("t", 7, "Sys")],
          calls := [("A", "t"), ("A", "t")] }, true) := by
  constructor
  · exact (C9_subscribe_not_idempotent.1 {} (agentNop "A") "t")
  · exact C9_subscribe_not_idempotent.2 0 {} (agentNop "A") "t" 7 "Sys" rfl
      (Or.inr ⟨rfl, Or.inl rfl⟩)

namespace CacheManager

theorem applyOps_apply {α : Type} :
    ∀ (ops : List (CacheOp α)) (c : Store α) (k : String),
      applyOps c ops k =
        match lastSet k ops with
        | some (v, t, ttl) => some ⟨v, t + ttl⟩
        | none => c k := by
  intro ops
  induction ops with
  | nil => intro c k; rfl
  | cons op rest ih =>
      intro c k
      cases op with
      | set k' v t ttl =>
          rw [applyOps, ih]
          cases hlast : lastSet k rest with
          | some r => simp [lastSet, hlast]
          | none =>
              by_cases hk : k' = k
              · simp [lastSet, hlast, hk, set]
              · have h1 : (k' == k) = false := by simp [hk]
                have h2 : (k == k') = false := by simp [Ne.symm hk]
                simp [lastSet, hlast, h1, set, h2]

theorem get_eq {α : Type} (now : Nat) (c : Store α) (key : String) :
    get now c key =
      match c key with
      | some e => if now < e.expiry then some e.data else none
      | none => none := by
  unfold get clean_expired
  dsimp only
  cases hc : c key with
  | some e => by_cases h : now < e.expiry <;> simp [h]
  | none => rfl

/-- C5: for every cache key `k`, `get` at time `now` returns the value
stored by the most recent `set(k, v, ttl)` (at some time `t`) if and only
if `now < t + ttl`, and otherwise signals absence, no matter how many
`set` calls on other keys happened in between; and, on any store at all,
`get` never returns data except from an entry whose expiry is strictly in
the future. -/
theorem C5_get_returns_most_recent_unexpired_set {α : Type} :
    (∀ (ops : List (CacheOp α)) (k : String) (now : Nat),
        get now (applyOps emptyStore ops) k =
          match lastSet k ops with
          | some (v, t, ttl) => if now < t + ttl then some v else none
          | none => none) ∧
    (∀ (now : Nat) (c : Store α) (k : String) (v : α),
        get now c k = some v → ∃ e, c k = some e ∧ e.data = v ∧ now < e.expiry) := by
  constructor
  · intro ops k now
    rw [get_eq, applyOps_apply]
    cases lastSet k ops with
    | some r => rfl
    | none => rfl
  · intro now c k v h
    rw [get_eq] at h
    cases hc : c k with
    | some e =>
        rw [hc] at h
        dsimp only at h
        by_cases hlt : now < e.expiry
        · rw [if_pos hlt] at h
          exact ⟨e, rfl, Option.some.inj h, hlt⟩
        · rw [if_neg hlt] at h
          exact absurd h (by simp)
    | none => rw [hc] at h; exact absurd h (by simp)

theorem C5_witness :
    get 5 (applyOps (emptyStore (α := Nat))
        [CacheOp.set "y" 1 0 100, CacheOp.set "x" 41 0 2, CacheOp.set "x" 42 3 10]) "x"
      = some 42 ∧
    (∃ e, applyOps (emptyStore (α := Nat))
        [CacheOp.set "y" 1 0 100, CacheOp.set "x" 41 0 2, CacheOp.set "x" 42 3 10] "x"
      = some e ∧ e.data = 42 ∧ 5 < e.expiry) ∧
    get 13 (applyOps (emptyStore (α := Nat))
        [CacheOp.set "y" 1 0 100, CacheOp.set "x" 41 0 2, CacheOp.set "x" 42 3 10]) "x"
      = none := by
  refine ⟨?_, ?_, ?_⟩
  · exact (C5_get_returns_most_recent_unexpired_set.1
      [CacheOp.set "y" 1 0 100, CacheOp.set "x" 41 0 2, CacheOp.set "x" 42 3 10] "x" 5)
  · exact C5_get_returns_most_recent_unexpired_set.2 5 _ "x" 42
      ((C5_get_returns_most_recent_unexpired_set.1
        [CacheOp.set "y" 1 0 100, CacheOp.set "x" 41 0 2, CacheOp.set "x" 42 3 10] "x" 5))
  · exact (C5_get_returns_most_recent_unexpired_set.1
      [CacheOp.set "y" 1 0 100, CacheOp.set "x" 41 0 2, CacheOp.set "x" 42 3 10] "x" 13)

/-- C8: if the durable store exists but is corrupt or unreadable (loading
raises), the exception is caught and the cache starts as the empty store:
construction completes and every key reads as absent. -/
theorem C8_corrupt_store_loads_empty (α : Type) :
    ∀ (now : Nat),
      load α true (.error ()) now = emptyStore ∧
      ∀ k, (load α true (.error ()) now) k = none := by
  intro now
  exact ⟨rfl, fun _ => rfl⟩

end CacheManager

theorem find?_eq_head?_of_filter {α : Type} (p : α → Bool) :
    ∀ l : List α, l.find? p = (l.filter p).head? := by
  intro l
  induction l with
  | nil => rfl
  | cons a l ih =>
      by_cases h : p a = true
      · rw [List.find?_cons_of_pos _ h, List.filter_cons, if_pos h]
        rfl
      · rw [List.find?_cons_of_neg _ h, List.filter_cons, if_neg h]
        exact ih

/-- C3 fails on the code at a concrete input: on a cache miss with the
provider fetch raising, `_get_price_data` catches the exception but
publishes nothing at all — the log stays empty, so no message on
"price_data" exists for subscribers to receive (the claim promises an
empty/error dataset message). -/
theorem C3_counterexample :
    TradingSession.getPriceData "AAPL" none (.error ()) [] = ([], none) ∧
    List.filter (fun e => e.1 == "price_data")
      (TradingSession.getPriceData "AAPL" none (.error ()) []).1 = [] := by
  exact ⟨rfl, rfl⟩

/-- C3 amended: an exception during the REQUESTING phase's direct price
fetch is caught, so the call completes normally and the session is not
aborted — but no message is published on "price_data" (the log is
returned unchanged) and nothing is written to the cache; subscribers of
that topic receive no message from this call. -/
theorem C3_fetch_exn_caught_publishes_nothing (symbol : String)
    (cached : Option (List Nat)) (log : List LogEntry)
    (hcached : ∀ d, cached = some d → d = []) :
    TradingSession.getPriceData symbol cached (.error ()) log = (log, none) := by
  unfold TradingSession.getPriceData TradingSession.priceFetchBranch
  cases cached with
  | none => rfl
  | some d =>
      have hd : d = [] := hcached d rfl
      subst hd
      simp

theorem C3_witness :
    TradingSession.getPriceData "AAPL" (some []) (.error ())
        [("news_request", { symbol := some "AAPL" }, "System")] =
      ([("news_request", { symbol := some "AAPL" }, "System")], none) :=
  C3_fetch_exn_caught_publishes_nothing "AAPL" (some []) _
    (fun _ hd => (Option.some.inj hd).symm)

/-- C4 fails on the code at a concrete input: with two messages on
"news_analysis" in the log, `get_results` returns the extracted field of
the *first* (earliest) one, not of the most recent one. -/
theorem C4_counterexample :
    (TradingSession.get_results "AAPL" TradingSession.newsTwiceLog).news_analysis
        = some "a" ∧
    (TradingSession.specResultsMostRecent "AAPL"
        TradingSession.newsTwiceLog).news_analysis = some "b" ∧
    TradingSession.get_results "AAPL" TradingSession.newsTwiceLog ≠
      TradingSession.specResultsMostRecent "AAPL" TradingSession.newsTwiceLog := by
  refine ⟨rfl, rfl, ?_⟩
  decide

/-- C4 amended: `get_results` returns, for each tracked result topic, the
extracted field of the *earliest* message ever published on that topic;
when no message was published it returns the per-topic sentinel string
for the news/technical/recommendation fields and Python `None` for the
ownership/economic/peer fields; as a total projection of the log it never
raises, whichever topics are absent. -/
theorem C4_get_results_earliest_message (symbol : String) (log : List LogEntry) :
    TradingSession.get_results symbol log =
      TradingSession.specResultsFirst symbol log := by
  simp only [TradingSession.get_results, TradingSession.specResultsFirst,
    find?_eq_head?_of_filter]

theorem consolidate_at (t : String) :
    ∀ (log : List LogEntry) (a : String → Option String) (c : String),
      a t = some c →
      (log.foldl TradingSession.consolidateStep a) t =
        some (log.foldl
          (fun cur e => if e.1 == t then (e.2.1.analysis).getD cur else cur) c) := by
  intro log
  induction log with
  | nil =>
      intro a c h
      simpa using h
  | cons e l ih =>
      intro a c h
      rw [List.foldl_cons, List.foldl_cons]
      cases he : a e.1 with
      | none =>
          have hne : (e.1 == t) = false := by
            refine beq_eq_false_iff_ne.mpr ?_
            intro hh
            rw [hh, h] at he
            exact Option.noConfusion he
          have hstep : TradingSession.consolidateStep a e = a := by
            unfold TradingSession.consolidateStep
            rw [he]
          rw [hstep]
          simp only [hne, Bool.false_eq_true, if_false]
          exact ih a c h
      | some cur =>
          have hstep : TradingSession.consolidateStep a e =
              fun u => if u == e.1 then some ((e.2.1.analysis).getD cur) else a u := by
            unfold TradingSession.consolidateStep
            rw [he]
          rw [hstep]
          by_cases ht : e.1 = t
          · subst ht
            rw [h] at he
            have hc : cur = c := (Option.some.inj he).symm
            subst hc
            simp only [beq_self_eq_true, if_true]
            refine ih _ _ ?_
            simp
          · have hb1 : (e.1 == t) = false := by simp [ht]
            have hb2 : (t == e.1) = false := by simp [Ne.symm ht]
            simp only [hb1, Bool.false_eq_true, if_false]
            refine ih _ _ ?_
            simp only [hb2, Bool.false_eq_true, if_false]
            exact h

theorem foldl_value_last (t : String) :
    ∀ (log : List LogEntry) (c : String),
      (∀ e ∈ log, e.1 = t → (e.2.1.analysis).isSome) →
      log.foldl (fun cur e => if e.1 == t then (e.2.1.analysis).getD cur else cur) c
        = (TradingSession.lastAnalysisOn log t).getD c := by
  intro log
  induction log using List.reverseRecOn with
  | nil =>
      intro c _
      simp [TradingSession.lastAnalysisOn]
  | append_singleton l e ih =>
      intro c h
      rw [List.foldl_append, List.foldl_cons, List.foldl_nil]
      by_cases he : e.1 = t
      · have hsome := h e (by simp) he
        obtain ⟨v, hv⟩ := Option.isSome_iff_exists.mp hsome
        have hb : (e.1 == t) = true := by simp [he]
        rw [if_pos hb]
        unfold TradingSession.lastAnalysisOn
        rw [List.filter_append]
        have hfe : List.filter (fun u => u.1 == t) [e] = [e] := by simp [hb]
        rw [hfe, List.getLast?_concat]
        simp [hv]
      · have hb : (e.1 == t) = false := by simp [he]
        have ih' := ih c (fun e' he' ht' => h e' (by simp [he']) ht')
        rw [if_neg (by simp [hb])]
        unfold TradingSession.lastAnalysisOn
        rw [List.filter_append]
        have hfe : List.filter (fun u => u.1 == t) [e] = [] := by simp [hb]
        rw [hfe, List.append_nil]
        unfold TradingSession.lastAnalysisOn at ih'
        exact ih'

/-- C6: at consolidation time, the payload published on
"analysis_consolidation" contains, for each of the five expected result
topics, the extracted "analysis" value of the last message published on
that topic (stated for logs whose messages on tracked topics carry the
field, which is what "the extracted value of the last message" refers
to), and the literal default placeholder for every expected topic on
which no message was ever published; exactly one consolidation message
carrying all assembled results plus the target symbol is appended. -/
theorem C6_consolidated_payload (symbol : String) (log : List LogEntry)
    (h1 : ∀ e ∈ log, e.1 = "news_analysis" → (e.2.1.analysis).isSome)
    (h2 : ∀ e ∈ log, e.1 = "technical_analysis" → (e.2.1.analysis).isSome)
    (h3 : ∀ e ∈ log, e.1 = "ownership_analysis" → (e.2.1.analysis).isSome)
    (h4 : ∀ e ∈ log, e.1 = "economic_analysis" → (e.2.1.analysis).isSome)
    (h5 : ∀ e ∈ log, e.1 = "peer_analysis" → (e.2.1.analysis).isSome) :
    TradingSession.consolidateAnalyses symbol log =
      log ++ [("analysis_consolidation",
        { symbol := some symbol,
          news_analysis := some ((TradingSession.lastAnalysisOn log
            "news_analysis").getD "No news analysis available"),
          technical_analysis := some ((TradingSession.lastAnalysisOn log
            "technical_analysis").getD "No technical analysis available"),
          ownership_analysis := some ((TradingSession.lastAnalysisOn log
            "ownership_analysis").getD "No ownership analysis available"),
          economic_analysis := some ((TradingSession.lastAnalysisOn log
            "economic_analysis").getD "No economic analysis available"),
          peer_analysis := some ((TradingSession.lastAnalysisOn log
            "peer_analysis").getD "No peer analysis available") }, "System")] := by
  have key : ∀ (tp dflt : String), TradingSession.initAnalyses tp = some dflt →
      (∀ e ∈ log, e.1 = tp → (e.2.1.analysis).isSome) →
      (log.foldl TradingSession.consolidateStep TradingSession.initAnalyses) tp =
        some ((TradingSession.lastAnalysisOn log tp).getD dflt) := by
    intro tp dflt hinit hh
    rw [consolidate_at tp log TradingSession.initAnalyses dflt hinit,
      foldl_value_last tp log dflt hh]
  simp only [TradingSession.consolidateAnalyses]
  rw [key "news_analysis" _ rfl h1, key "technical_analysis" _ rfl h2,
    key "ownership_analysis" _ rfl h3, key "economic_analysis" _ rfl h4,
    key "peer_analysis" _ rfl h5]

theorem C6_witness :
    TradingSession.consolidateAnalyses "AAPL" TradingSession.consolidateWitnessLog =
      TradingSession.consolidateWitnessLog ++ [("analysis_consolidation",
        { symbol := some "AAPL",
          news_analysis := some "n2",
          technical_analysis := some "ta",
          ownership_analysis := some "No ownership analysis available",
          economic_analysis := some "No economic analysis available",
          peer_analysis := some "No peer analysis available" }, "System")] := by
  rw [C6_consolidated_payload "AAPL" TradingSession.consolidateWitnessLog
    (by decide) (by decide) (by decide) (by decide) (by decide)]
  rfl
